import Mathlib

/-!
Verification of snakejs's generation/selection/mutation core.

The JavaScript sources embedded here are `src/utils.js`
(`weightedRandomSelection`), `src/controllers/gameInstancesManager.js`
(`GameInstancesManager`) and `src/managers/gameInstance.js` (`GameInstance`).
JavaScript numbers are modelled as `JSNum`: an exact rational, NaN, or a signed
infinity, with the IEEE propagation rules for addition, multiplication,
division and the `<=` comparison that the source relies on.  The single
ambient `Math.random()` draw of a call is passed in explicitly as a rational
in `[0, 1)`; a run of the controller consumes a stream `Nat → ℚ` of draws.

Object references are modelled explicitly: the manager's `gameInstances`
array is a list `refs` of indices into a heap `store` of `GameInstance`
records, so aliasing created by selection (the same survivor object placed
into several slots) is visible to the theorems.
-/

/-- A JavaScript number: NaN, +Infinity, -Infinity, or a finite value
(modelled as an exact rational). -/
inductive JSNum where
  | nan : JSNum
  | inf : JSNum
  | ninf : JSNum
  | num : ℚ → JSNum
deriving DecidableEq, Repr

/-- JavaScript `+` on numbers: NaN absorbs, opposite infinities give NaN. -/
def JSNum.add : JSNum → JSNum → JSNum
  | .nan, _ => .nan
  | _, .nan => .nan
  | .inf, .ninf => .nan
  | .ninf, .inf => .nan
  | .inf, _ => .inf
  | _, .inf => .inf
  | .ninf, _ => .ninf
  | _, .ninf => .ninf
  | .num a, .num b => .num (a + b)

/-- JavaScript `*` on numbers: NaN absorbs, `0 * Infinity` is NaN. -/
def JSNum.mul : JSNum → JSNum → JSNum
  | .nan, _ => .nan
  | _, .nan => .nan
  | .inf, .inf => .inf
  | .inf, .ninf => .ninf
  | .ninf, .inf => .ninf
  | .ninf, .ninf => .inf
  | .inf, .num a => if a = 0 then .nan else if 0 < a then .inf else .ninf
  | .num a, .inf => if a = 0 then .nan else if 0 < a then .inf else .ninf
  | .ninf, .num a => if a = 0 then .nan else if 0 < a then .ninf else .inf
  | .num a, .ninf => if a = 0 then .nan else if 0 < a then .ninf else .inf
  | .num a, .num b => .num (a * b)

/-- JavaScript `/` on numbers: NaN absorbs, `0/0` is NaN, a nonzero finite
value divided by zero gives a signed infinity. -/
def JSNum.div : JSNum → JSNum → JSNum
  | .nan, _ => .nan
  | _, .nan => .nan
  | .inf, .inf => .nan
  | .inf, .ninf => .nan
  | .ninf, .inf => .nan
  | .ninf, .ninf => .nan
  | .inf, .num b => if 0 ≤ b then .inf else .ninf
  | .ninf, .num b => if 0 ≤ b then .ninf else .inf
  | .num _, .inf => .num 0
  | .num _, .ninf => .num 0
  | .num a, .num b =>
      if b = 0 then (if a = 0 then .nan else if 0 < a then .inf else .ninf)
      else .num (a / b)

/-- JavaScript `<=` on numbers: any comparison with NaN is false. -/
def JSNum.le : JSNum → JSNum → Bool
  | .nan, _ => false
  | _, .nan => false
  | .ninf, _ => true
  | _, .ninf => false
  | _, .inf => true
  | .inf, _ => false
  | .num a, .num b => decide (a ≤ b)

/-- JavaScript `isNaN` on a number. -/
def JSNum.isNaN : JSNum → Bool
  | .nan => true
  | _ => false

/-- The `for` loop of `weightedRandomSelection` (utils.js lines 35-42):
walk `elements`, accumulate `cumulativeWeight`, and return the first element
whose cumulative weight the draw is `<=`; fall through to `none` (JS `null`).
Reading past the end of `weights` is JS `undefined`, whose addition yields
NaN, modelled by `headD JSNum.nan`. -/
def selLoop {α : Type} : List α → List JSNum → JSNum → JSNum → Option α
  | [], _, _, _ => none
  | e :: es, ws, randomValue, cumulativeWeight =>
      let c := cumulativeWeight.add (ws.headD JSNum.nan)
      if randomValue.le c then some e else selLoop es ws.tail randomValue c

/-- The weight array actually used by `weightedRandomSelection` after the
all-NaN check (utils.js lines 28-30): if every weight is NaN, `fill`
overwrites every slot with `1 / weights.length`, else the array is untouched. -/
def effectiveWeights (weights : List JSNum) : List JSNum :=
  if weights.all JSNum.isNaN then
    List.replicate weights.length ((JSNum.num 1).div (JSNum.num (weights.length : ℚ)))
  else weights

/-- `totalWeight` of `weightedRandomSelection` (utils.js line 31): the
left fold of JS `+` over the (fill-adjusted) weights, seeded with 0. -/
def totalWeight (weights : List JSNum) : JSNum :=
  (effectiveWeights weights).foldl JSNum.add (JSNum.num 0)

/-- Embedding of `weightedRandomSelection(elements, weights)` (utils.js
lines 27-43).  `random` is the call's single `Math.random()` draw.  The
returned triple is (the JS return value, the caller's `elements` array after
the call, the caller's `weights` array after the call): the function never
writes `elements`, while `weights.fill` mutates `weights` in place in the
all-NaN branch. -/
def weightedRandomSelection {α : Type} (elements : List α) (weights : List JSNum)
    (random : ℚ) : Option α × List α × List JSNum :=
  let ws := effectiveWeights weights
  let randomValue := (JSNum.num random).mul (totalWeight weights)
  (selLoop elements ws randomValue (JSNum.num 0), elements, ws)

/-- `GameInstancesManager` passes the outcome of `snake.copy()` / `food.copy()`
to the `GameInstance` constructor; `Snake` itself is an external collaborator.
Modelled from the spec: one rational summarizes the agent state a deep copy
carries over, and `copy` yields an independent clone with the same state. -/
structure Snake where
  state : ℚ
deriving DecidableEq, Repr

/-- Modelled from the spec: `snake.copy()` is an independent deep clone,
so the clone's state equals the prototype's. -/
def Snake.copy (s : Snake) : Snake := ⟨s.state⟩

/-- Modelled from the spec: the state `new Snake()` (gameInstance.js line 7)
builds, a fixed default independent of any prototype. -/
def Snake.init : Snake := ⟨0⟩

/-- Modelled from the spec: `Food` is an external collaborator; one rational
summarizes its state. -/
structure Food where
  state : ℚ
deriving DecidableEq, Repr

/-- Modelled from the spec: `food.copy()` is an independent deep clone. -/
def Food.copy (f : Food) : Food := ⟨f.state⟩

/-- Modelled from the spec: the state `new Food()` (gameInstance.js line 8)
builds. -/
def Food.init : Food := ⟨0⟩

/-- One game-instance object (gameInstance.js lines 5-11): a snake, a food,
a score and a terminal flag.  `mutateCount` is a ghost counter, modelled from
the spec's counting-stub collaborator for the externally implemented
`mutate()`, recording how often `mutate` has run on this object. -/
structure GameInstance where
  snake : Snake
  food : Food
  score : ℚ
  isOver : Bool
  mutateCount : ℕ
deriving DecidableEq, Repr

/-- The `GameInstance` constructor (gameInstance.js lines 6-11).  It takes no
parameters: `this.snake = new Snake()`, `this.food = new Food()`,
`this.score = 0`, `this.isOver = false`. -/
def GameInstance.init : GameInstance :=
  { snake := Snake.init, food := Food.init, score := 0, isOver := false,
    mutateCount := 0 }

/-- Modelled from the spec: `calculateFitness` is not in the repository's
files (only its caller, gameInstancesManager.js line 62, is); the spec says
fitness is a non-negative scalar derived from the instance's terminal episode
state, e.g. the episode-accumulated score.  We read the instance's score. -/
def GameInstance.calculateFitness (g : GameInstance) : JSNum :=
  JSNum.num g.score

/-- Modelled from the spec: `reset` is not in the repository's files (only its
caller, gameInstancesManager.js line 77, is); the spec says reset clears the
terminal flag and the episode score while preserving the agent's learned
parameters. -/
def GameInstance.reset (g : GameInstance) : GameInstance :=
  { g with isOver := false, score := 0 }

/-- Modelled from the spec: `mutate` is not in the repository's files (only
its caller, gameInstancesManager.js line 90, is); the spec treats it as an
opaque in-place perturbation of the agent and suggests verifying invocation
counts with a counting stub, so the model bumps the ghost counter. -/
def GameInstance.mutate (g : GameInstance) : GameInstance :=
  { g with mutateCount := g.mutateCount + 1 }

/-- The manager's state (gameInstancesManager.js lines 14-17).  The JS
`gameInstances` array holds object references, so it is modelled as `refs`,
a list of indices into `store`, the heap of `GameInstance` objects; aliasing
(one object referenced from several slots) is then visible. -/
structure GameInstancesManager where
  nInstances : ℕ
  store : List GameInstance
  refs : List ℕ
deriving DecidableEq, Repr

/-- The `GameInstancesManager` constructor (lines 14-17): records
`nInstances` and starts with an empty `gameInstances` array. -/
def GameInstancesManager.create (n : ℕ) : GameInstancesManager :=
  { nInstances := n, store := [], refs := [] }

/-- `createGameInstance` (gameInstancesManager.js lines 25-27): returns
`new GameInstance(snake, food)`.  The constructor declares no parameters, so
the arguments are evaluated and discarded. -/
def createGameInstance (_snake : Snake) (_food : Food) : GameInstance :=
  GameInstance.init

/-- One iteration of `createGameInstances`' loop (lines 36-40): copy the
prototypes, build an instance from the copies, and push the new object. -/
def pushInstance (m : GameInstancesManager) (snake : Snake) (food : Food) :
    GameInstancesManager :=
  { m with store := m.store ++ [createGameInstance snake.copy food.copy],
           refs := m.refs ++ [m.store.length] }

/-- The loop of `createGameInstances`, counted down from `nInstances`. -/
def createGameInstancesAux (snake : Snake) (food : Food) :
    ℕ → GameInstancesManager → GameInstancesManager
  | 0, m => m
  | k + 1, m => createGameInstancesAux snake food k (pushInstance m snake food)

/-- `createGameInstances` (gameInstancesManager.js lines 35-41): push
`nInstances` new instances onto the existing `gameInstances` array. -/
def createGameInstances (m : GameInstancesManager) (snake : Snake) (food : Food) :
    GameInstancesManager :=
  createGameInstancesAux snake food m.nInstances m

/-- The `fitnesses` array of `selection` (lines 61-63): map
`calculateFitness` over the population. -/
def fitnessesOf (m : GameInstancesManager) : List JSNum :=
  m.refs.map fun i => (m.store.getD i GameInstance.init).calculateFitness

/-- The `totalFitness` of `selection` (line 65). -/
def totalFitnessOf (m : GameInstancesManager) : JSNum :=
  (fitnessesOf m).foldl JSNum.add (JSNum.num 0)

/-- The `fitnessesNormalized` array of `selection` (lines 66-68): each
fitness divided (JS `/`) by the total. -/
def fitnessesNormalizedOf (m : GameInstancesManager) : List JSNum :=
  (fitnessesOf m).map fun f => f.div (totalFitnessOf m)

/-- The selection loop (gameInstancesManager.js lines 70-80), run `k` times:
each iteration draws one element of `elements` (the un-reassigned
`this.gameInstances` array) through `weightedRandomSelection`, crashes
(`none`, the JS TypeError on `null.reset()`) if the draw returned `null`,
resets the drawn object in the heap and appends its reference.  The weights
array is threaded because `weightedRandomSelection` may fill it in place; one
random draw is consumed per iteration. -/
def selectionLoop (elements : List ℕ) :
    ℕ → List JSNum → List GameInstance → (ℕ → ℚ) → List ℕ →
      Option (List ℕ × List JSNum × List GameInstance)
  | 0, ws, store, _, acc => some (acc, ws, store)
  | k + 1, ws, store, rs, acc =>
      match (weightedRandomSelection elements ws (rs 0)).1 with
      | none => none
      | some i =>
          selectionLoop elements k (weightedRandomSelection elements ws (rs 0)).2.2
            (store.set i (store.getD i GameInstance.init).reset)
            (fun j => rs (j + 1)) (acc ++ [i])

/-- `selection` (gameInstancesManager.js lines 60-83): compute the normalized
fitnesses of the current population, draw `nInstances` survivors, resetting
each as it is drawn, and replace `gameInstances` with the drawn references.
`rs` is the stream of `Math.random()` draws; `none` is the TypeError raised
when a draw returns `null`. -/
def GameInstancesManager.selection (m : GameInstancesManager) (rs : ℕ → ℚ) :
    Option GameInstancesManager :=
  match selectionLoop m.refs m.nInstances (fitnessesNormalizedOf m) m.store rs [] with
  | none => none
  | some (newRefs, _, store') => some { m with refs := newRefs, store := store' }

/-- `mutation` (gameInstancesManager.js lines 89-91): `forEach` over the
`gameInstances` array, invoking `mutate` on the referenced object once per
slot, in order. -/
def GameInstancesManager.mutation (m : GameInstancesManager) : GameInstancesManager :=
  { m with store :=
      m.refs.foldl (fun st i => st.set i (st.getD i GameInstance.init).mutate) m.store }

/-- `nextGeneration` (gameInstancesManager.js lines 48-51): `selection`, then
`mutation`, unconditionally. -/
def GameInstancesManager.nextGeneration (m : GameInstancesManager) (rs : ℕ → ℚ) :
    Option GameInstancesManager :=
  (m.selection rs).map GameInstancesManager.mutation

/-- `allInstancesOver` (gameInstancesManager.js lines 97-99): `every` over
the population's `isOver` flags. -/
def GameInstancesManager.allInstancesOver (m : GameInstancesManager) : Bool :=
  m.refs.all fun i => (m.store.getD i GameInstance.init).isOver

/-- The object at heap slot `j` is in the freshly-reset baseline state:
non-terminal with zero episode score. -/
def ResetAt (store : List GameInstance) (j : ℕ) : Prop :=
  (store.getD j GameInstance.init).isOver = false
    ∧ (store.getD j GameInstance.init).score = 0

/-- Invariant carried by the weights array across selection's iterations: it
has length `n` and is either all-NaN (before the first fill) or a vector of
non-negative finite values with positive total (after the fill, or the
normalized fitnesses of a generation with positive total fitness). -/
def WeightsOK (n : ℕ) (ws : List JSNum) : Prop :=
  ws.length = n
    ∧ ((∀ w ∈ ws, w.isNaN = true)
      ∨ ∃ qs : List ℚ, ws = qs.map JSNum.num ∧ (∀ q ∈ qs, 0 ≤ q) ∧ 0 < qs.sum)

/-- A two-member population in which only the second instance scored: with
any draw in `[1/10, 1)` selection deterministically picks the second
instance for every slot. -/
def managerEx : GameInstancesManager :=
  { nInstances := 2,
    store :=
      [{ snake := ⟨0⟩, food := ⟨0⟩, score := 0, isOver := true, mutateCount := 0 },
       { snake := ⟨0⟩, food := ⟨0⟩, score := 10, isOver := true, mutateCount := 0 }],
    refs := [0, 1] }

/-- A constant stream of `Math.random()` draws. -/
def drawsEx : ℕ → ℚ := fun _ => 1/2

/-- A two-member population in which both instances scored zero: the total
fitness is zero, every normalized weight is `0/0`. -/
def managerZeroEx : GameInstancesManager :=
  { nInstances := 2,
    store :=
      [{ snake := ⟨1⟩, food := ⟨0⟩, score := 0, isOver := true, mutateCount := 0 },
       { snake := ⟨2⟩, food := ⟨0⟩, score := 0, isOver := true, mutateCount := 0 }],
    refs := [0, 1] }

/-- The list of episode scores `selection` reads through `calculateFitness`. -/
def scoresOf (m : GameInstancesManager) : List ℚ :=
  m.refs.map fun i => (m.store.getD i GameInstance.init).score

lemma JSNum.nan_add (x : JSNum) : JSNum.nan.add x = JSNum.nan := by
  cases x <;> rfl

lemma JSNum.add_nan (x : JSNum) : x.add JSNum.nan = JSNum.nan := by
  cases x <;> rfl

lemma JSNum.mul_nan (x : JSNum) : x.mul JSNum.nan = JSNum.nan := by
  cases x <;> rfl

lemma JSNum.nan_le (x : JSNum) : JSNum.nan.le x = false := by
  cases x <;> rfl

lemma JSNum.num_add_num (a b : ℚ) :
    (JSNum.num a).add (JSNum.num b) = JSNum.num (a + b) := rfl

lemma JSNum.num_mul_num (a b : ℚ) :
    (JSNum.num a).mul (JSNum.num b) = JSNum.num (a * b) := rfl

lemma JSNum.num_le_num (a b : ℚ) :
    (JSNum.num a).le (JSNum.num b) = decide (a ≤ b) := rfl

lemma JSNum.num_div_num_of_ne (a b : ℚ) (hb : b ≠ 0) :
    (JSNum.num a).div (JSNum.num b) = JSNum.num (a / b) := by
  simp [JSNum.div, hb]

lemma JSNum.zero_div_zero :
    (JSNum.num 0).div (JSNum.num 0) = JSNum.nan := rfl

lemma JSNum.isNaN_num (a : ℚ) : (JSNum.num a).isNaN = false := rfl

/-- Folding JS `+` over finite values is exact rational summation. -/
lemma foldl_add_map_num (qs : List ℚ) :
    ∀ a : ℚ, (qs.map JSNum.num).foldl JSNum.add (JSNum.num a) = JSNum.num (a + qs.sum) := by
  induction qs with
  | nil => intro a; simp
  | cons q qs ih =>
      intro a
      simp only [List.map_cons, List.foldl_cons, JSNum.num_add_num, ih, List.sum_cons]
      ring_nf

/-- A NaN accumulator absorbs the whole fold. -/
lemma foldl_add_nan (ws : List JSNum) :
    ws.foldl JSNum.add JSNum.nan = JSNum.nan := by
  induction ws with
  | nil => rfl
  | cons w ws ih => simpa [JSNum.nan_add] using ih

/-- A NaN entry anywhere makes the fold of JS `+` NaN. -/
lemma foldl_add_of_nan_mem (ws : List JSNum) (hmem : JSNum.nan ∈ ws) (x : JSNum) :
    ws.foldl JSNum.add x = JSNum.nan := by
  induction ws generalizing x with
  | nil => cases hmem
  | cons w ws ih =>
      rcases List.mem_cons.mp hmem with h | h
      · subst h
        simpa [JSNum.add_nan] using foldl_add_nan ws
      · exact ih h _

/-- With a NaN draw the selection walk falls through to `null`: NaN satisfies
no `<=` comparison. -/
lemma selLoop_nan {α : Type} (elements : List α) :
    ∀ (ws : List JSNum) (acc : JSNum),
      selLoop elements ws JSNum.nan acc = none := by
  induction elements with
  | nil => intro ws acc; rfl
  | cons e es ih => intro ws acc; simpa [selLoop, JSNum.nan_le] using ih ws.tail _

/-- A list of non-negative rationals has a non-negative sum. -/
lemma list_sum_nonneg (qs : List ℚ) (h : ∀ q ∈ qs, 0 ≤ q) : 0 ≤ qs.sum := by
  induction qs with
  | nil => simp
  | cons q qs ih =>
      simp only [List.sum_cons]
      have hq := h q (List.mem_cons_self q qs)
      have := ih fun x hx => h x (List.mem_cons_of_mem q hx)
      linarith

/-- Non-negative rationals summing to zero are all zero. -/
lemma eq_zero_of_sum_eq_zero (qs : List ℚ) (h : ∀ q ∈ qs, 0 ≤ q)
    (hz : qs.sum = 0) : ∀ q ∈ qs, q = 0 := by
  induction qs with
  | nil => intro q hq; cases hq
  | cons q qs ih =>
      intro x hx
      have hq := h q (List.mem_cons_self q qs)
      have hrest : ∀ y ∈ qs, 0 ≤ y := fun y hy => h y (List.mem_cons_of_mem q hy)
      have hsum : 0 ≤ qs.sum := list_sum_nonneg qs hrest
      have hcons : q + qs.sum = 0 := by simpa using hz
      have hq0 : q = 0 := by linarith
      have hqs : qs.sum = 0 := by linarith
      rcases List.mem_cons.mp hx with h1 | h1
      · exact h1.trans hq0
      · exact ih hrest hqs x h1

/-- The first-hit walk on finite non-negative weights: if the draw is at most
the final cumulative sum, the walk returns the first element whose inclusive
cumulative weight meets or exceeds the draw. -/
lemma selLoop_first_hit {α : Type} :
    ∀ (elements : List α) (qs : List ℚ) (r a : ℚ),
      elements.length = qs.length → elements ≠ [] →
      (∀ q ∈ qs, 0 ≤ q) → r ≤ a + qs.sum →
      ∃ (i : ℕ) (h : i < elements.length),
        selLoop elements (qs.map JSNum.num) (JSNum.num r) (JSNum.num a)
            = some (elements.get ⟨i, h⟩)
          ∧ r ≤ a + (qs.take (i + 1)).sum
          ∧ ∀ j < i, a + (qs.take (j + 1)).sum < r := by
  intro elements
  induction elements with
  | nil => intro qs r a _ hne; exact absurd rfl hne
  | cons e es ih =>
      intro qs r a hlen _ hnn hr
      cases qs with
      | nil => simp at hlen
      | cons q qs' =>
          by_cases hhit : r ≤ a + q
          · refine ⟨0, by simp, ?_, ?_, ?_⟩
            · simp [selLoop, JSNum.num_add_num, JSNum.num_le_num, hhit]
            · simpa using hhit
            · intro j hj; cases hj
          · push_neg at hhit
            have hlen' : es.length = qs'.length := by simpa using hlen
            have hne' : es ≠ [] := by
              rintro rfl
              have : qs' = [] := by simpa using hlen'.symm
              subst this
              simp only [List.sum_cons, List.sum_nil, add_zero] at hr
              exact absurd hr (not_le.mpr (by linarith))
            have hnn' : ∀ x ∈ qs', 0 ≤ x := fun x hx => hnn x (List.mem_cons_of_mem q hx)
            have hr' : r ≤ (a + q) + qs'.sum := by
              simp only [List.sum_cons] at hr; linarith
            obtain ⟨i, hi, heq, hub, hlb⟩ := ih qs' r (a + q) hlen' hne' hnn' hr'
            refine ⟨i + 1, by simpa using Nat.succ_lt_succ hi, ?_, ?_, ?_⟩
            · have hstep :
                  selLoop (e :: es) ((q :: qs').map JSNum.num) (JSNum.num r) (JSNum.num a)
                    = selLoop es (qs'.map JSNum.num) (JSNum.num r) (JSNum.num (a + q)) := by
                simp [selLoop, JSNum.num_add_num, JSNum.num_le_num, not_le.mpr hhit]
              rw [hstep, heq]
              rfl
            · simpa [List.take_succ_cons, List.sum_cons, add_assoc] using hub
            · intro j hj
              cases j with
              | zero => simpa using hhit
              | succ j' =>
                  have := hlb j' (Nat.lt_of_succ_lt_succ hj)
                  simpa [List.take_succ_cons, List.sum_cons, add_assoc] using this

/-- A weight list with a non-NaN entry fails the `every(isNaN)` test. -/
lemma all_isNaN_eq_false (ws : List JSNum) (hnot : ∃ w ∈ ws, w.isNaN = false) :
    ws.all JSNum.isNaN = false := by
  rcases hnot with ⟨w, hw, hfalse⟩
  by_contra h
  have := List.all_eq_true.mp (Bool.of_not_eq_false h) w hw
  rw [hfalse] at this
  cases this

lemma eq_nan_of_isNaN (w : JSNum) (h : w.isNaN = true) : w = JSNum.nan := by
  cases w with
  | nan => rfl
  | inf => cases h
  | ninf => cases h
  | num a => cases h

/-- `weightedRandomSelection` on finite non-negative weights with positive
total: the weights are untouched and the call returns the first element whose
inclusive cumulative weight reaches the draw `r * total`. -/
lemma wRS_pos_spec {α : Type} (elements : List α) (qs : List ℚ) (r : ℚ)
    (hlen : elements.length = qs.length) (hne : elements ≠ [])
    (hnn : ∀ q ∈ qs, 0 ≤ q) (hpos : 0 < qs.sum) (hr1 : r < 1) :
    ∃ (i : ℕ) (h : i < elements.length),
      (weightedRandomSelection elements (qs.map JSNum.num) r).1
          = some (elements.get ⟨i, h⟩)
        ∧ r * qs.sum ≤ (qs.take (i + 1)).sum
        ∧ (∀ j < i, (qs.take (j + 1)).sum < r * qs.sum)
        ∧ (weightedRandomSelection elements (qs.map JSNum.num) r).2.2
            = qs.map JSNum.num := by
  have hqne : qs ≠ [] := by
    rintro rfl
    exact hne (List.length_eq_zero.mp (by simpa using hlen))
  have hnotall : (qs.map JSNum.num).all JSNum.isNaN = false := by
    apply all_isNaN_eq_false
    rcases List.exists_mem_of_ne_nil qs hqne with ⟨q, hq⟩
    exact ⟨JSNum.num q, List.mem_map_of_mem JSNum.num hq, rfl⟩
  have heff : effectiveWeights (qs.map JSNum.num) = qs.map JSNum.num := by
    simp [effectiveWeights, hnotall]
  have htot : totalWeight (qs.map JSNum.num) = JSNum.num qs.sum := by
    rw [totalWeight, heff, foldl_add_map_num]
    norm_num
  have hrv : (JSNum.num r).mul (totalWeight (qs.map JSNum.num))
      = JSNum.num (r * qs.sum) := by
    rw [htot, JSNum.num_mul_num]
  have hle : r * qs.sum ≤ 0 + qs.sum := by
    have := mul_le_mul_of_nonneg_right hr1.le hpos.le
    linarith
  obtain ⟨i, hi, heq, hub, hlb⟩ :=
    selLoop_first_hit elements qs (r * qs.sum) 0 hlen hne hnn hle
  refine ⟨i, hi, ?_, by simpa using hub, fun j hj => by simpa using hlb j hj, ?_⟩
  · show selLoop elements (effectiveWeights (qs.map JSNum.num))
        ((JSNum.num r).mul (totalWeight (qs.map JSNum.num))) (JSNum.num 0)
        = some (elements.get ⟨i, hi⟩)
    rw [heff, hrv]
    exact heq
  · show effectiveWeights (qs.map JSNum.num) = qs.map JSNum.num
    exact heff

/-- `weightedRandomSelection` on an all-NaN weight vector: `fill` replaces
every slot by `1/len`, the effective total is 1, and the walk returns the
element whose uniform slice of `[0, 1)` contains the draw. -/
lemma wRS_allNaN_spec {α : Type} (elements : List α) (ws : List JSNum) (r : ℚ)
    (hlen : elements.length = ws.length) (hne : elements ≠ [])
    (hnan : ∀ w ∈ ws, w.isNaN = true) (hr0 : 0 ≤ r) (hr1 : r < 1) :
    (weightedRandomSelection elements ws r).2.2
        = List.replicate ws.length (JSNum.num (1 / (ws.length : ℚ)))
    ∧ ∃ (i : ℕ) (h : i < elements.length),
        (weightedRandomSelection elements ws r).1 = some (elements.get ⟨i, h⟩)
        ∧ r ≤ ((i : ℚ) + 1) / (elements.length : ℚ)
        ∧ ∀ j < i, ((j : ℚ) + 1) / (elements.length : ℚ) < r := by
  have hn : ws.length ≠ 0 := by
    intro h0
    exact hne (List.length_eq_zero.mp (hlen.trans h0))
  have hnq : ((ws.length : ℚ)) ≠ 0 := Nat.cast_ne_zero.mpr hn
  have hall : ws.all JSNum.isNaN = true :=
    List.all_eq_true.mpr fun w hw => hnan w hw
  have heff : effectiveWeights ws
      = (List.replicate ws.length ((1 : ℚ) / (ws.length : ℚ))).map JSNum.num := by
    rw [effectiveWeights, if_pos hall, JSNum.num_div_num_of_ne _ _ hnq,
      List.map_replicate]
  have hsum : (List.replicate ws.length ((1 : ℚ) / (ws.length : ℚ))).sum = 1 := by
    rw [List.sum_replicate, nsmul_eq_mul, mul_one_div, div_self hnq]
  have htot : totalWeight ws = JSNum.num 1 := by
    rw [totalWeight, heff, foldl_add_map_num, hsum]
    norm_num
  have hrv : (JSNum.num r).mul (totalWeight ws) = JSNum.num r := by
    rw [htot, JSNum.num_mul_num, mul_one]
  have hlen' : elements.length
      = (List.replicate ws.length ((1 : ℚ) / (ws.length : ℚ))).length := by
    simpa using hlen
  have hnn : ∀ q ∈ List.replicate ws.length ((1 : ℚ) / (ws.length : ℚ)), 0 ≤ q := by
    intro q hq
    rw [List.eq_of_mem_replicate hq]
    positivity
  have hle : r ≤ 0 + (List.replicate ws.length ((1 : ℚ) / (ws.length : ℚ))).sum := by
    rw [hsum]; linarith
  obtain ⟨i, hi, heq, hub, hlb⟩ :=
    selLoop_first_hit elements (List.replicate ws.length ((1 : ℚ) / (ws.length : ℚ)))
      r 0 hlen' hne hnn hle
  have htake : ∀ k : ℕ, k < ws.length →
      ((List.replicate ws.length ((1 : ℚ) / (ws.length : ℚ))).take (k + 1)).sum
        = ((k : ℚ) + 1) / (ws.length : ℚ) := by
    intro k hk
    rw [List.take_replicate, List.sum_replicate, Nat.min_eq_left hk, nsmul_eq_mul]
    push_cast
    ring
  have hiw : i < ws.length := hlen ▸ hi
  constructor
  · show effectiveWeights ws = _
    rw [heff, List.map_replicate]
  · refine ⟨i, hi, ?_, ?_, ?_⟩
    · show selLoop elements (effectiveWeights ws)
          ((JSNum.num r).mul (totalWeight ws)) (JSNum.num 0)
          = some (elements.get ⟨i, hi⟩)
      rw [heff, hrv]
      exact heq
    · rw [hlen]
      rw [htake i hiw] at hub
      linarith [hub]
    · intro j hj
      rw [hlen]
      have := hlb j hj
      rw [htake j (lt_trans hj hiw)] at this
      linarith [this]

/-- Claim C1: on a non-empty elements/weights pair of equal length whose
weights are all non-negative finite numbers summing to zero, the source
returns the FIRST element, not the documented `null` sentinel: the draw is
`random * 0 = 0` and `0 <= 0` already holds at the first loop step.  This
contradicts the function's own JSDoc ("If the weights sum to 0, the function
will return `null`") and the spec's zero-total rule, so the claim records a
code bug, evidenced here by evaluating the embedded code. -/
theorem zeroTotal_returns_first_element {α : Type} (elements : List α)
    (qs : List ℚ) (r : ℚ) (hne : elements ≠ [])
    (hlen : elements.length = qs.length)
    (hnn : ∀ q ∈ qs, 0 ≤ q) (hz : qs.sum = 0) :
    ∃ h : 0 < elements.length,
      (weightedRandomSelection elements (qs.map JSNum.num) r).1
        = some (elements.get ⟨0, h⟩) := by
  cases elements with
  | nil => exact absurd rfl hne
  | cons e es =>
      cases qs with
      | nil => simp at hlen
      | cons q qs' =>
          have hq0 : q = 0 :=
            eq_zero_of_sum_eq_zero _ hnn hz q (List.mem_cons_self q qs')
          have hnotall : ((q :: qs').map JSNum.num).all JSNum.isNaN = false := by
            apply all_isNaN_eq_false
            exact ⟨JSNum.num q, by simp, rfl⟩
          have heff : effectiveWeights ((q :: qs').map JSNum.num)
              = (q :: qs').map JSNum.num := by
            rw [effectiveWeights, if_neg]
            rw [hnotall]
            exact Bool.false_ne_true
          have htot : totalWeight ((q :: qs').map JSNum.num) = JSNum.num 0 := by
            rw [totalWeight, heff, foldl_add_map_num, hz]
            norm_num
          refine ⟨by simp, ?_⟩
          show selLoop (e :: es) (effectiveWeights ((q :: qs').map JSNum.num))
              ((JSNum.num r).mul (totalWeight ((q :: qs').map JSNum.num)))
              (JSNum.num 0) = some ((e :: es).get ⟨0, _⟩)
          rw [heff, htot, JSNum.num_mul_num, mul_zero]
          simp [selLoop, JSNum.num_add_num, JSNum.num_le_num, hq0]

/-- Witness for claim C1's theorem: at elements `[10, 20, 30]`, weights
`[0, 0, 0]` and draw `1/2`, the call returns `some 10`, the first element. -/
theorem zeroTotal_returns_first_element_witness :
    ∃ h : 0 < ([10, 20, 30] : List ℕ).length,
      (weightedRandomSelection [10, 20, 30]
          (([0, 0, 0] : List ℚ).map JSNum.num) (1/2)).1
        = some (([10, 20, 30] : List ℕ).get ⟨0, h⟩) :=
  zeroTotal_returns_first_element [10, 20, 30] [0, 0, 0] (1/2) (by simp)
    rfl (by norm_num [List.forall_mem_cons]) (by norm_num)

/-- Claim C2: with equal-length non-empty inputs, all weights non-negative
finite numbers with positive total, and a draw `v` uniform in `[0, total)`
(the code draws `v = Math.random() * total`, modelled by feeding the
rational `v / total` as the `Math.random()` value), `weightedRandomSelection`
returns exactly the first element whose inclusive cumulative weight satisfies
`v <= cumulative`, and in particular never returns `null`. -/
theorem weightedSelection_first_hit {α : Type} (elements : List α)
    (qs : List ℚ) (v : ℚ) (hlen : elements.length = qs.length)
    (hne : elements ≠ []) (hnn : ∀ q ∈ qs, 0 ≤ q) (hpos : 0 < qs.sum)
    (hv0 : 0 ≤ v) (hv1 : v < qs.sum) :
    ∃ (i : ℕ) (h : i < elements.length),
      (weightedRandomSelection elements (qs.map JSNum.num) (v / qs.sum)).1
          = some (elements.get ⟨i, h⟩)
        ∧ v ≤ (qs.take (i + 1)).sum
        ∧ (∀ j < i, (qs.take (j + 1)).sum < v)
        ∧ (weightedRandomSelection elements (qs.map JSNum.num) (v / qs.sum)).1
            ≠ none := by
  have hr1 : v / qs.sum < 1 := (div_lt_one hpos).mpr hv1
  obtain ⟨i, hi, heq, hub, hlb, _⟩ :=
    wRS_pos_spec elements qs (v / qs.sum) hlen hne hnn hpos hr1
  have hcancel : v / qs.sum * qs.sum = v := div_mul_cancel₀ v (ne_of_gt hpos)
  rw [hcancel] at hub hlb
  exact ⟨i, hi, heq, hub, hlb, by rw [heq]; exact Option.some_ne_none _⟩

/-- Witness for claim C2's theorem: elements `[10, 20, 30]`, weights
`[1, 2, 3]`, draw `v = 3` out of `[0, 6)` hits the second element (inclusive
boundary `3 <= 1 + 2`). -/
theorem weightedSelection_first_hit_witness :
    ∃ (i : ℕ) (h : i < ([10, 20, 30] : List ℕ).length),
      (weightedRandomSelection [10, 20, 30]
          (([1, 2, 3] : List ℚ).map JSNum.num) (3 / ([1, 2, 3] : List ℚ).sum)).1
          = some (([10, 20, 30] : List ℕ).get ⟨i, h⟩)
        ∧ (3 : ℚ) ≤ (([1, 2, 3] : List ℚ).take (i + 1)).sum
        ∧ (∀ j < i, (([1, 2, 3] : List ℚ).take (j + 1)).sum < (3 : ℚ))
        ∧ (weightedRandomSelection [10, 20, 30]
            (([1, 2, 3] : List ℚ).map JSNum.num) (3 / ([1, 2, 3] : List ℚ).sum)).1
            ≠ none :=
  weightedSelection_first_hit [10, 20, 30] [1, 2, 3] 3 rfl (by simp)
    (by norm_num [List.forall_mem_cons]) (by norm_num) (by norm_num) (by norm_num)

/-- Claim C4: a weight vector with at least one NaN and at least one non-NaN
entry skips the uniform-fallback branch (the weights are left untouched), the
NaN propagates into `totalWeight` and hence into the draw, the `<=`
comparison never holds, and the call falls through to `null`. -/
theorem partialNaN_returns_null {α : Type} (elements : List α)
    (ws : List JSNum) (r : ℚ) (hne : elements ≠ [])
    (hlen : elements.length = ws.length)
    (hsome : ∃ w ∈ ws, w.isNaN = true) (hother : ∃ w ∈ ws, w.isNaN = false) :
    effectiveWeights ws = ws
    ∧ totalWeight ws = JSNum.nan
    ∧ (weightedRandomSelection elements ws r).1 = none
    ∧ (weightedRandomSelection elements ws r).2.2 = ws := by
  have hnotall : ws.all JSNum.isNaN = false := all_isNaN_eq_false ws hother
  have heff : effectiveWeights ws = ws := by simp [effectiveWeights, hnotall]
  have hmem : JSNum.nan ∈ ws := by
    rcases hsome with ⟨w, hw, hisnan⟩
    exact (eq_nan_of_isNaN w hisnan) ▸ hw
  have htot : totalWeight ws = JSNum.nan := by
    rw [totalWeight, heff]
    exact foldl_add_of_nan_mem ws hmem _
  refine ⟨heff, htot, ?_, heff⟩
  show selLoop elements (effectiveWeights ws)
      ((JSNum.num r).mul (totalWeight ws)) (JSNum.num 0) = none
  rw [heff, htot, JSNum.mul_nan]
  exact selLoop_nan elements ws (JSNum.num 0)

/-- Witness for claim C4's theorem: weights `[NaN, 1]` over two elements. -/
theorem partialNaN_returns_null_witness :
    effectiveWeights [JSNum.nan, JSNum.num 1] = [JSNum.nan, JSNum.num 1]
    ∧ totalWeight [JSNum.nan, JSNum.num 1] = JSNum.nan
    ∧ (weightedRandomSelection [10, 20] [JSNum.nan, JSNum.num 1] (1/2)).1
        = (none : Option ℕ)
    ∧ (weightedRandomSelection [10, 20] [JSNum.nan, JSNum.num 1] (1/2)).2.2
        = [JSNum.nan, JSNum.num 1] :=
  partialNaN_returns_null [10, 20] [JSNum.nan, JSNum.num 1] (1/2) (by simp) rfl
    ⟨JSNum.nan, List.mem_cons_self _ _, rfl⟩
    ⟨JSNum.num 1, List.mem_cons_of_mem _ (List.mem_cons_self _ _), rfl⟩

/-- Counterexample to claim C5: in the all-NaN case `weights.fill` mutates
the caller's weights array in place — after the call the array is `[1]`,
no longer `[NaN]`. -/
theorem fill_mutates_weights_cex :
    (weightedRandomSelection [(0 : ℚ)] [JSNum.nan] (1/2)).2.2 ≠ [JSNum.nan] := by
  norm_num [weightedRandomSelection, effectiveWeights, JSNum.isNaN, JSNum.div,
    List.replicate]
  exact fun h => JSNum.noConfusion h

/-- Claim C5 as amended: a call consumes exactly one random draw and leaves
the caller's elements array unchanged; the caller's weights array is also
unchanged EXCEPT when every weight is NaN, in which case `fill` overwrites
every slot with `1 / weights.length` in place. -/
theorem weights_mutated_only_when_all_nan {α : Type} (elements : List α)
    (ws : List JSNum) (r : ℚ) :
    (weightedRandomSelection elements ws r).2.1 = elements
    ∧ (weightedRandomSelection elements ws r).2.2
        = (if ws.all JSNum.isNaN then
            List.replicate ws.length (JSNum.num (1 / (ws.length : ℚ)))
          else ws) := by
  refine ⟨rfl, ?_⟩
  show effectiveWeights ws = _
  rw [effectiveWeights]
  by_cases hall : ws.all JSNum.isNaN
  · rw [if_pos hall, if_pos hall]
    cases hws : ws.length with
    | zero => simp
    | succ k =>
        have hcast : (((k + 1 : ℕ)) : ℚ) ≠ 0 := by
          exact_mod_cast Nat.succ_ne_zero k
        rw [JSNum.num_div_num_of_ne _ _ hcast]
  · rw [if_neg hall, if_neg hall]

lemma getD_set_eq (l : List GameInstance) :
    ∀ (i : ℕ) (x : GameInstance), i < l.length →
      (l.set i x).getD i GameInstance.init = x := by
  induction l with
  | nil => intro i x h; simp at h
  | cons a l ih =>
      intro i x h
      cases i with
      | zero => rfl
      | succ i' =>
          have : i' < l.length := by simpa using h
          simpa [List.getD_cons_succ] using ih i' x this

lemma getD_set_ne (l : List GameInstance) :
    ∀ (i j : ℕ) (x : GameInstance), i ≠ j →
      (l.set i x).getD j GameInstance.init = l.getD j GameInstance.init := by
  induction l with
  | nil => intro i j x _; rfl
  | cons a l ih =>
      intro i j x hij
      cases i with
      | zero =>
          cases j with
          | zero => exact absurd rfl hij
          | succ j' => rfl
      | succ i' =>
          cases j with
          | zero => rfl
          | succ j' =>
              have : i' ≠ j' := fun h => hij (by rw [h])
              simpa [List.getD_cons_succ] using ih i' j' x this

/-- Resetting one valid slot establishes `ResetAt` there and preserves it
everywhere else. -/
lemma resetAt_after_set (store : List GameInstance) (i j : ℕ)
    (hi : i < store.length)
    (h : j = i ∨ ResetAt store j) :
    ResetAt (store.set i (store.getD i GameInstance.init).reset) j := by
  by_cases hji : j = i
  · subst hji
    rw [ResetAt, getD_set_eq store j _ hi]
    exact ⟨rfl, rfl⟩
  · rcases h with h | h
    · exact absurd h hji
    · rw [ResetAt, getD_set_ne store i j _ fun hh => hji hh.symm]
      exact h

/-- One `weightedRandomSelection` call inside selection's loop: with a good
weights array and a draw in `[0, 1)` it picks a member of `elements` and
leaves the weights array good. -/
lemma wRS_step (elements : List ℕ) (ws : List JSNum) (r : ℚ)
    (hne : elements ≠ []) (hok : WeightsOK elements.length ws)
    (hr0 : 0 ≤ r) (hr1 : r < 1) :
    ∃ (i : ℕ) (h : i < elements.length),
      (weightedRandomSelection elements ws r).1 = some (elements.get ⟨i, h⟩)
      ∧ WeightsOK elements.length ((weightedRandomSelection elements ws r).2.2) := by
  obtain ⟨hlen, hcase⟩ := hok
  have hn : elements.length ≠ 0 := by
    intro h0
    exact hne (List.length_eq_zero.mp h0)
  rcases hcase with hnan | ⟨qs, rfl, hnn, hpos⟩
  · obtain ⟨hfill, i, hi, heq, _, _⟩ :=
      wRS_allNaN_spec elements ws r hlen.symm hne hnan hr0 hr1
    refine ⟨i, hi, heq, ?_⟩
    rw [hfill, ← List.map_replicate]
    refine ⟨by simpa using hlen, Or.inr ⟨List.replicate ws.length ((1 : ℚ) / (ws.length : ℚ)), rfl, ?_, ?_⟩⟩
    · intro q hq
      rw [List.eq_of_mem_replicate hq]
      positivity
    · have hwsn' : ws.length ≠ 0 := by
        intro h0
        rw [h0] at hlen
        exact hn hlen.symm
      rw [List.sum_replicate, nsmul_eq_mul, mul_one_div,
        div_self (Nat.cast_ne_zero.mpr hwsn')]
      norm_num
  · obtain ⟨i, hi, heq, _, _, hsame⟩ :=
      wRS_pos_spec elements qs r (by simpa using hlen.symm) hne hnn hpos hr1
    exact ⟨i, hi, heq, by rw [hsame]; exact ⟨hlen, Or.inr ⟨qs, rfl, hnn, hpos⟩⟩⟩

/-- The selection loop, run `k` times from a good weights array, a valid
reference list and draws in `[0, 1)`: it succeeds, appends `k` picked
references (all members of `elements`), preserves the heap's length, and
every picked slot ends reset. -/
lemma selectionLoop_spec (elements : List ℕ) (hne : elements ≠ []) :
    ∀ (k : ℕ) (ws : List JSNum) (store : List GameInstance) (rs : ℕ → ℚ)
      (acc : List ℕ),
      WeightsOK elements.length ws →
      (∀ j, 0 ≤ rs j ∧ rs j < 1) →
      (∀ i ∈ elements, i < store.length) →
      (∀ j ∈ acc, ResetAt store j) →
      ∃ acc' ws' store',
        selectionLoop elements k ws store rs acc = some (acc', ws', store')
        ∧ acc'.length = acc.length + k
        ∧ store'.length = store.length
        ∧ (∀ j ∈ acc', ResetAt store' j)
        ∧ (∀ j ∈ acc', j ∈ acc ∨ j ∈ elements) := by
  intro k
  induction k with
  | zero =>
      intro ws store rs acc hok hrs hv hreset
      exact ⟨acc, ws, store, rfl, by simp, rfl, hreset, fun j hj => Or.inl hj⟩
  | succ k ih =>
      intro ws store rs acc hok hrs hv hreset
      obtain ⟨i, hi, heq, hok'⟩ := wRS_step elements ws (rs 0) hne hok (hrs 0).1 (hrs 0).2
      have hmem : elements.get ⟨i, hi⟩ ∈ elements := List.get_mem elements i hi
      have hvalid : elements.get ⟨i, hi⟩ < store.length := hv _ hmem
      obtain ⟨acc', ws', store', hloop, hlen', hslen, hreset', hmem'⟩ :=
        ih ((weightedRandomSelection elements ws (rs 0)).2.2)
          (store.set (elements.get ⟨i, hi⟩)
            (store.getD (elements.get ⟨i, hi⟩) GameInstance.init).reset)
          (fun j => rs (j + 1)) (acc ++ [elements.get ⟨i, hi⟩]) hok'
          (fun j => hrs (j + 1)) (by simpa using hv)
          (by
            intro j hj
            rcases List.mem_append.mp hj with hj | hj
            · exact resetAt_after_set store _ j hvalid (Or.inr (hreset j hj))
            · have : j = elements.get ⟨i, hi⟩ := by simpa using hj
              exact resetAt_after_set store _ j hvalid (Or.inl this))
      refine ⟨acc', ws', store', ?_, ?_, ?_, hreset', ?_⟩
      · rw [selectionLoop, heq]
        exact hloop
      · rw [hlen']
        simp [Nat.add_assoc, Nat.add_comm 1 k]
      · rw [hslen, List.length_set]
      · intro j hj
        rcases hmem' j hj with hj' | hj'
        · rcases List.mem_append.mp hj' with hj'' | hj''
          · exact Or.inl hj''
          · have : j = elements.get ⟨i, hi⟩ := by simpa using hj''
            exact Or.inr (this ▸ hmem)
        · exact Or.inr hj'

lemma fitnessesOf_eq_map_num (m : GameInstancesManager) :
    fitnessesOf m = (scoresOf m).map JSNum.num := by
  rw [fitnessesOf, scoresOf, List.map_map]
  rfl

lemma totalFitnessOf_eq_num_sum (m : GameInstancesManager) :
    totalFitnessOf m = JSNum.num (scoresOf m).sum := by
  rw [totalFitnessOf, fitnessesOf_eq_map_num, foldl_add_map_num]
  norm_num

lemma sum_map_div (l : List ℚ) (c : ℚ) :
    (l.map fun x => x / c).sum = l.sum / c := by
  induction l with
  | nil => simp
  | cons x l ih => simp [List.sum_cons, ih, add_div]

/-- With zero total fitness (and non-negative scores) every normalized
fitness is `0/0`, i.e. NaN. -/
lemma normalized_all_nan_of_zero_total (m : GameInstancesManager)
    (hnn : ∀ i ∈ m.refs, 0 ≤ (m.store.getD i GameInstance.init).score)
    (hzero : (scoresOf m).sum = 0) :
    ∀ w ∈ fitnessesNormalizedOf m, w.isNaN = true := by
  intro w hw
  rw [fitnessesNormalizedOf, fitnessesOf_eq_map_num, List.map_map] at hw
  rcases List.mem_map.mp hw with ⟨q, hq, rfl⟩
  have hqnn : ∀ q ∈ scoresOf m, 0 ≤ q := by
    intro x hx
    rcases List.mem_map.mp hx with ⟨i, hi, rfl⟩
    exact hnn i hi
  have hq0 : q = 0 := eq_zero_of_sum_eq_zero _ hqnn hzero q hq
  show ((JSNum.num q).div (totalFitnessOf m)).isNaN = true
  rw [totalFitnessOf_eq_num_sum, hzero, hq0, JSNum.zero_div_zero]
  rfl

/-- The normalized fitnesses form a good weights array: all-NaN when the
total fitness is zero, a non-negative vector summing to one otherwise. -/
lemma normalized_weightsOK (m : GameInstancesManager)
    (hnn : ∀ i ∈ m.refs, 0 ≤ (m.store.getD i GameInstance.init).score) :
    WeightsOK m.refs.length (fitnessesNormalizedOf m) := by
  have hlen : (fitnessesNormalizedOf m).length = m.refs.length := by
    rw [fitnessesNormalizedOf, fitnessesOf, List.length_map, List.length_map]
  have hqnn : ∀ q ∈ scoresOf m, 0 ≤ q := by
    intro x hx
    rcases List.mem_map.mp hx with ⟨i, hi, rfl⟩
    exact hnn i hi
  refine ⟨hlen, ?_⟩
  rcases eq_or_lt_of_le (list_sum_nonneg _ hqnn) with hzero | hpos
  · exact Or.inl (normalized_all_nan_of_zero_total m hnn hzero.symm)
  · refine Or.inr ⟨(scoresOf m).map fun q => q / (scoresOf m).sum, ?_, ?_, ?_⟩
    · rw [fitnessesNormalizedOf, fitnessesOf_eq_map_num, List.map_map, List.map_map]
      apply List.map_congr_left
      intro q _
      show (JSNum.num q).div (totalFitnessOf m) = JSNum.num (q / (scoresOf m).sum)
      rw [totalFitnessOf_eq_num_sum, JSNum.num_div_num_of_ne _ _ (ne_of_gt hpos)]
    · intro q hq
      rcases List.mem_map.mp hq with ⟨x, hx, rfl⟩
      exact div_nonneg (hqnn x hx) hpos.le
    · rw [sum_map_div, div_self (ne_of_gt hpos)]
      norm_num

/-- `selection` on a well-formed manager state always succeeds and returns a
population of exactly `nInstances` references into the old population, each
pointing at a reset object, over a heap of unchanged size. -/
lemma selection_spec (m : GameInstancesManager) (rs : ℕ → ℚ)
    (hlen : m.refs.length = m.nInstances)
    (hvalid : ∀ i ∈ m.refs, i < m.store.length)
    (hnn : ∀ i ∈ m.refs, 0 ≤ (m.store.getD i GameInstance.init).score)
    (hrs : ∀ j, 0 ≤ rs j ∧ rs j < 1) :
    ∃ m', m.selection rs = some m'
      ∧ m'.nInstances = m.nInstances
      ∧ m'.refs.length = m.nInstances
      ∧ m'.store.length = m.store.length
      ∧ (∀ j ∈ m'.refs, ResetAt m'.store j)
      ∧ (∀ j ∈ m'.refs, j ∈ m.refs) := by
  by_cases hzero : m.nInstances = 0
  · refine ⟨{ m with refs := [] }, ?_, rfl, by simp [hzero], rfl,
      by simp, by simp⟩
    simp only [GameInstancesManager.selection, hzero]
    rfl
  · have hne : m.refs ≠ [] := by
      intro h0
      rw [h0] at hlen
      simp only [List.length_nil] at hlen
      exact hzero hlen.symm
    obtain ⟨acc', ws', store', hloop, hacc, hslen, hreset, hmem⟩ :=
      selectionLoop_spec m.refs hne m.nInstances (fitnessesNormalizedOf m)
        m.store rs [] (normalized_weightsOK m hnn) hrs hvalid
        (fun j hj => absurd hj (List.not_mem_nil j))
    refine ⟨{ m with refs := acc', store := store' }, ?_, rfl, ?_, hslen, hreset, ?_⟩
    · simp only [GameInstancesManager.selection, hloop]
    · rw [hacc]
      simp
    · intro j hj
      rcases hmem j hj with hj' | hj'
      · exact absurd hj' (List.not_mem_nil j)
      · exact hj'

/-- Claim C6: on a well-formed state whose population already has size
`nInstances` (with valid references, non-negative scores and draws in
`[0, 1)`), `nextGeneration` succeeds and the population again has exactly
`nInstances` members: selection installs a population of that size whatever
the fitness values, and mutation does not change the array. -/
theorem nextGeneration_preserves_size (m : GameInstancesManager) (rs : ℕ → ℚ)
    (hlen : m.refs.length = m.nInstances)
    (hvalid : ∀ i ∈ m.refs, i < m.store.length)
    (hnn : ∀ i ∈ m.refs, 0 ≤ (m.store.getD i GameInstance.init).score)
    (hrs : ∀ j, 0 ≤ rs j ∧ rs j < 1) :
    m.refs.length = m.nInstances
    ∧ ∃ m', m.nextGeneration rs = some m'
        ∧ m'.refs.length = m.nInstances
        ∧ m'.nInstances = m.nInstances := by
  obtain ⟨m', hsel, hni, hlen', _, _, _⟩ := selection_spec m rs hlen hvalid hnn hrs
  refine ⟨hlen, m'.mutation, ?_, ?_, ?_⟩
  · rw [GameInstancesManager.nextGeneration, hsel]
    rfl
  · show m'.mutation.refs.length = m.nInstances
    exact hlen'
  · show m'.mutation.nInstances = m.nInstances
    exact hni

/-- Witness for claim C6's theorem: the two-member example population. -/
theorem nextGeneration_preserves_size_witness :
    managerEx.refs.length = managerEx.nInstances
    ∧ ∃ m', managerEx.nextGeneration drawsEx = some m'
        ∧ m'.refs.length = managerEx.nInstances
        ∧ m'.nInstances = managerEx.nInstances :=
  nextGeneration_preserves_size managerEx drawsEx rfl
    (by norm_num [managerEx, List.forall_mem_cons])
    (by norm_num [managerEx, List.forall_mem_cons, GameInstance.init,
      List.getD_cons_zero, List.getD_cons_succ])
    (fun j => by norm_num [drawsEx])

/-- Claim C9: after a successful `selection()` every member of the new
population reports a cleared terminal flag and a zero episode score,
whatever flags and scores the instances carried before. -/
theorem selection_resets_all_members (m : GameInstancesManager) (rs : ℕ → ℚ)
    (hlen : m.refs.length = m.nInstances)
    (hvalid : ∀ i ∈ m.refs, i < m.store.length)
    (hnn : ∀ i ∈ m.refs, 0 ≤ (m.store.getD i GameInstance.init).score)
    (hrs : ∀ j, 0 ≤ rs j ∧ rs j < 1) :
    ∃ m', m.selection rs = some m'
      ∧ ∀ j ∈ m'.refs,
          (m'.store.getD j GameInstance.init).isOver = false
          ∧ (m'.store.getD j GameInstance.init).score = 0 := by
  obtain ⟨m', hsel, _, _, _, hreset, _⟩ := selection_spec m rs hlen hvalid hnn hrs
  exact ⟨m', hsel, fun j hj => hreset j hj⟩

/-- Witness for claim C9's theorem: the two-member example population, whose
members both start terminal. -/
theorem selection_resets_all_members_witness :
    ∃ m', managerEx.selection drawsEx = some m'
      ∧ ∀ j ∈ m'.refs,
          (m'.store.getD j GameInstance.init).isOver = false
          ∧ (m'.store.getD j GameInstance.init).score = 0 :=
  selection_resets_all_members managerEx drawsEx rfl
    (by norm_num [managerEx, List.forall_mem_cons])
    (by norm_num [managerEx, List.forall_mem_cons, GameInstance.init,
      List.getD_cons_zero, List.getD_cons_succ])
    (fun j => by norm_num [drawsEx])

/-- Claim C3: an all-NaN weight vector is replaced in place by the uniform
vector `1/len` and the call then returns the element whose uniform slice of
`[0, 1)` contains the draw — in particular some element, never `null`; and
in `selection()`, a zero total fitness (with non-negative scores) makes
every normalized weight NaN, so exactly this fallback fires and selection
succeeds instead of failing. -/
theorem allNaN_uniform_fallback {α : Type} (elements : List α) (ws : List JSNum)
    (r : ℚ) (m : GameInstancesManager) (rs : ℕ → ℚ)
    (hlen : elements.length = ws.length) (hne : elements ≠ [])
    (hnan : ∀ w ∈ ws, w.isNaN = true) (hr0 : 0 ≤ r) (hr1 : r < 1)
    (hlen2 : m.refs.length = m.nInstances)
    (hvalid : ∀ i ∈ m.refs, i < m.store.length)
    (hnn : ∀ i ∈ m.refs, 0 ≤ (m.store.getD i GameInstance.init).score)
    (hzero : totalFitnessOf m = JSNum.num 0)
    (hrs : ∀ j, 0 ≤ rs j ∧ rs j < 1) :
    ((weightedRandomSelection elements ws r).2.2
        = List.replicate ws.length (JSNum.num (1 / (ws.length : ℚ)))
      ∧ ∃ (i : ℕ) (h : i < elements.length),
          (weightedRandomSelection elements ws r).1 = some (elements.get ⟨i, h⟩)
          ∧ r ≤ ((i : ℚ) + 1) / (elements.length : ℚ)
          ∧ ∀ j < i, ((j : ℚ) + 1) / (elements.length : ℚ) < r)
    ∧ (∀ w ∈ fitnessesNormalizedOf m, w.isNaN = true)
    ∧ (∃ m', m.selection rs = some m') := by
  have hsum : (scoresOf m).sum = 0 := by
    have := totalFitnessOf_eq_num_sum m
    rw [hzero] at this
    exact (JSNum.num.inj this).symm
  refine ⟨wRS_allNaN_spec elements ws r hlen hne hnan hr0 hr1, ?_, ?_⟩
  · exact normalized_all_nan_of_zero_total m hnn hsum
  · obtain ⟨m', hsel, _⟩ := selection_spec m rs hlen2 hvalid hnn hrs
    exact ⟨m', hsel⟩

/-- Witness for claim C3's theorem: weights `[NaN, NaN]` over two elements
with draw `1/2`, and the all-zero-fitness example population. -/
theorem allNaN_uniform_fallback_witness :
    ((weightedRandomSelection [10, 20] [JSNum.nan, JSNum.nan] (1/2)).2.2
        = List.replicate ([JSNum.nan, JSNum.nan] : List JSNum).length
            (JSNum.num (1 / (([JSNum.nan, JSNum.nan] : List JSNum).length : ℚ)))
      ∧ ∃ (i : ℕ) (h : i < ([10, 20] : List ℕ).length),
          (weightedRandomSelection [10, 20] [JSNum.nan, JSNum.nan] (1/2)).1
              = some (([10, 20] : List ℕ).get ⟨i, h⟩)
          ∧ (1/2 : ℚ) ≤ ((i : ℚ) + 1) / ((([10, 20] : List ℕ).length : ℕ) : ℚ)
          ∧ ∀ j < i, ((j : ℚ) + 1) / ((([10, 20] : List ℕ).length : ℕ) : ℚ) < (1/2 : ℚ))
    ∧ (∀ w ∈ fitnessesNormalizedOf managerZeroEx, w.isNaN = true)
    ∧ (∃ m', managerZeroEx.selection drawsEx = some m') :=
  allNaN_uniform_fallback [10, 20] [JSNum.nan, JSNum.nan] (1/2) managerZeroEx drawsEx
    rfl (by simp)
    (by norm_num [List.forall_mem_cons, JSNum.isNaN])
    (by norm_num) (by norm_num) rfl
    (by norm_num [managerZeroEx, List.forall_mem_cons])
    (by norm_num [managerZeroEx, List.forall_mem_cons, GameInstance.init,
      List.getD_cons_zero, List.getD_cons_succ])
    (by norm_num [totalFitnessOf, fitnessesOf, managerZeroEx,
      GameInstance.calculateFitness, JSNum.add, List.getD_cons_zero,
      List.getD_cons_succ, JSNum.num_add_num])
    (fun j => by norm_num [drawsEx])

/-- Folding `mutate` over a reference list bumps each slot's mutate counter
once per occurrence of its index. -/
lemma mutation_fold_count (refs : List ℕ) :
    ∀ (st : List GameInstance) (i : ℕ), i < st.length →
      ((refs.foldl (fun s j => s.set j (s.getD j GameInstance.init).mutate) st).getD
          i GameInstance.init).mutateCount
        = (st.getD i GameInstance.init).mutateCount + refs.count i := by
  induction refs with
  | nil => intro st i _; simp
  | cons j rest ih =>
      intro st i h
      simp only [List.foldl_cons]
      have hlen : i < (st.set j (st.getD j GameInstance.init).mutate).length := by
        simpa using h
      rw [ih _ i hlen]
      by_cases hij : j = i
      · subst hij
        rw [getD_set_eq st j _ h]
        simp only [GameInstance.mutate, List.count_cons]
        simp [Nat.add_assoc, Nat.add_comm 1]
      · rw [getD_set_ne st j i _ hij]
        simp [List.count_cons, hij]

/-- Counterexample to claim C7: in the two-member example population only
the second instance scored, so selection puts the SAME object reference into
both slots (`refs = [1, 1]`), and `mutation()`'s per-slot `forEach` then
invokes that object's mutate twice, not once — the aliased picks cannot
diverge. -/
theorem aliased_survivor_mutated_twice_cex :
    (managerEx.nextGeneration drawsEx).map
        (fun m' => (m'.refs, (m'.store.getD 1 GameInstance.init).mutateCount))
      = some ([1, 1], 2) := by
  norm_num [managerEx, drawsEx, GameInstancesManager.nextGeneration,
    GameInstancesManager.selection, selectionLoop, GameInstancesManager.mutation,
    fitnessesNormalizedOf, fitnessesOf, totalFitnessOf,
    GameInstance.calculateFitness, weightedRandomSelection, effectiveWeights,
    totalWeight, selLoop, JSNum.add, JSNum.mul, JSNum.div, JSNum.le, JSNum.isNaN,
    GameInstance.reset, GameInstance.mutate, GameInstance.init,
    List.getD_cons_zero, List.getD_cons_succ]

/-- Claim C7 as amended: after `mutation()`, `mutate` has been invoked once
per population SLOT, not once per instance: an object referenced from `k`
slots has had its mutate operation invoked exactly `k` times (and the slots
keep aliasing one object rather than diverging). -/
theorem mutation_once_per_slot (m : GameInstancesManager) (i : ℕ)
    (h : i < m.store.length) :
    ((m.mutation).store.getD i GameInstance.init).mutateCount
      = (m.store.getD i GameInstance.init).mutateCount + m.refs.count i := by
  show ((m.refs.foldl (fun s j => s.set j (s.getD j GameInstance.init).mutate)
      m.store).getD i GameInstance.init).mutateCount = _
  exact mutation_fold_count m.refs m.store i h

/-- Witness for claim C7's amended theorem: in the example population, slot
index 1 occurs once in `refs = [0, 1]`, so its counter rises by one. -/
theorem mutation_once_per_slot_witness :
    ((managerEx.mutation).store.getD 1 GameInstance.init).mutateCount
      = (managerEx.store.getD 1 GameInstance.init).mutateCount
        + managerEx.refs.count 1 :=
  mutation_once_per_slot managerEx 1 (by norm_num [managerEx])

/-- Claim C8: evaluation at the failing input.  `createGameInstances` on a
one-instance manager with prototype snake state 5 and food state 7 stores the
default-constructed instance: the `GameInstance` constructor takes no
parameters, so the prototype copies passed at the call site are discarded and
the stored snake is `new Snake()`'s default, not the prototype's copy.  (The
instance does start non-terminal with zero score, as claimed.) -/
theorem constructor_ignores_prototypes :
    (createGameInstances (GameInstancesManager.create 1) ⟨5⟩ ⟨7⟩).store
        = [GameInstance.init]
    ∧ GameInstance.init.snake ≠ Snake.copy ⟨5⟩
    ∧ GameInstance.init.food ≠ Food.copy ⟨7⟩
    ∧ GameInstance.init.isOver = false
    ∧ GameInstance.init.score = 0 := by
  refine ⟨rfl, ?_, ?_, rfl, rfl⟩
  · intro h
    have := congrArg Snake.state h
    norm_num [GameInstance.init, Snake.init, Snake.copy] at this
  · intro h
    have := congrArg Food.state h
    norm_num [GameInstance.init, Food.init, Food.copy] at this

/-- Each run of `createGameInstances`' loop appends `k` fresh references. -/
lemma createGameInstancesAux_spec (snake : Snake) (food : Food) :
    ∀ (k : ℕ) (m : GameInstancesManager),
      ∃ t : List ℕ,
        (createGameInstancesAux snake food k m).refs = m.refs ++ t
        ∧ t.length = k
        ∧ (createGameInstancesAux snake food k m).nInstances = m.nInstances := by
  intro k
  induction k with
  | zero => intro m; exact ⟨[], by simp [createGameInstancesAux], rfl, rfl⟩
  | succ k ih =>
      intro m
      obtain ⟨t, ht, hlen, hni⟩ := ih (pushInstance m snake food)
      refine ⟨m.store.length :: t, ?_, by simp [hlen], ?_⟩
      · show (createGameInstancesAux snake food k (pushInstance m snake food)).refs = _
        rw [ht]
        show (m.refs ++ [m.store.length]) ++ t = m.refs ++ (m.store.length :: t)
        rw [List.append_assoc]
        rfl
      · show (createGameInstancesAux snake food k (pushInstance m snake food)).nInstances = _
        rw [hni]
        rfl

/-- Claim C10: every `createGameInstances` call appends exactly `nInstances`
new references to the existing population instead of replacing it, so `k`
calls on a fresh manager leave `k * n` members; and on the empty population
present before the first call, `allInstancesOver` is vacuously true. -/
theorem createGameInstances_appends (n k : ℕ) (snake : Snake) (food : Food)
    (m : GameInstancesManager) :
    (∃ t : List ℕ,
        (createGameInstances m snake food).refs = m.refs ++ t
        ∧ t.length = m.nInstances)
    ∧ ((fun mm => createGameInstances mm snake food)^[k]
          (GameInstancesManager.create n)).refs.length = k * n
    ∧ (GameInstancesManager.create n).allInstancesOver = true := by
  refine ⟨?_, ?_, rfl⟩
  · obtain ⟨t, ht, hlen, _⟩ :=
      createGameInstancesAux_spec snake food m.nInstances m
    exact ⟨t, ht, hlen⟩
  · have key : ∀ j : ℕ,
        ((fun mm => createGameInstances mm snake food)^[j]
            (GameInstancesManager.create n)).refs.length = j * n
        ∧ ((fun mm => createGameInstances mm snake food)^[j]
            (GameInstancesManager.create n)).nInstances = n := by
      intro j
      induction j with
      | zero => exact ⟨by simp [GameInstancesManager.create], rfl⟩
      | succ j ihj =>
          rw [Function.iterate_succ_apply']
          obtain ⟨t, ht, hlen, hni⟩ :=
            createGameInstancesAux_spec snake food
              ((fun mm => createGameInstances mm snake food)^[j]
                (GameInstancesManager.create n)).nInstances
              ((fun mm => createGameInstances mm snake food)^[j]
                (GameInstancesManager.create n))
          constructor
          · show (createGameInstancesAux snake food _ _).refs.length = _
            rw [ht, List.length_append, ihj.1, hlen, ihj.2, Nat.succ_mul]
          · show (createGameInstancesAux snake food _ _).nInstances = _
            rw [hni, ihj.2]
    exact (key k).1
